import Mathlib

/-!
Verification of the photo-sharing backend (`main.py`).

The module below is a shallow embedding of the backend logic:
the three ndb models (`Notification`, `ThumbnailReference`, `Label`),
the GCS thumbnail bucket (modelled as an association list from object
name to object bytes), and the Pub/Sub ingestion handler
`ReceiveMessage.post` together with its helper functions.

Python strings are modelled by Lean `String`; Python's fallible
operations (`str.index`, attribute access on `None`, `list.remove`,
`gcs.delete`) are modelled with `Option`/`Except`.  A handler run that
raises an exception is modelled as `Except.error st` where `st` is the
datastore/bucket state at the moment the exception is raised (mutations
already committed stay committed, matching ndb `put()` semantics).
External services (the image resizer, the Vision API, the blobstore
serving-URL service) do not touch the datastore; their responses enter
the model as oracle fields of the incoming message or as function
parameters.
-/

namespace PhotoShare

/-! ### Python string primitives -/

/-- First index at which `needle` occurs in `hay`, as a list-of-chars
search; models Python `str.index` / `str.find` (which return the index
of the first occurrence, scanning left to right). -/
def subFindIdx : List Char → List Char → Option Nat
  | [], needle => if needle.isEmpty then some 0 else none
  | c :: cs, needle =>
    if needle.isPrefixOf (c :: cs) then some 0
    else (subFindIdx cs needle).map (· + 1)

/-- Models Python `s.index(pat)`: `some i` with the first occurrence
index, or `none` when `pat` does not occur (Python raises `ValueError`). -/
def pyIndex (s pat : String) : Option Nat :=
  subFindIdx s.data pat.data

/-- Models the Python slice `s[:n]` (character counted, as Python
strings are sequences of code points). -/
def strTake (s : String) (n : Nat) : String :=
  String.mk (s.data.take n)

/-- Models the Python slice `s[n:]`. -/
def strDrop (s : String) (n : Nat) : String :=
  String.mk (s.data.drop n)

/-- Models Python `str(x)` applied to `attributes.get(...)`: a missing
attribute is `None` and stringifies to `"None"`. -/
def pyStr : Option String → String
  | none => "None"
  | some s => s

/-- Helper for `pySplit`: accumulates the current word (reversed). -/
def pySplitChars : List Char → List Char → List String
  | [], cur => if cur.isEmpty then [] else [String.mk cur.reverse]
  | c :: cs, cur =>
    if c.isWhitespace then
      if cur.isEmpty then pySplitChars cs []
      else String.mk cur.reverse :: pySplitChars cs []
    else pySplitChars cs (c :: cur)

/-- Models Python `str.split()` with no argument: split on runs of
whitespace, discarding empty words. -/
def pySplit (s : String) : List String :=
  pySplitChars s.data []

/-! ### Data model (`main.py` lines 26-58)

The `date` properties (`auto_now_add`) are not stored explicitly: every
store is kept in insertion order, so date-descending order is the
reverse of list order. -/

/-- Bucket names and display constants from `main.py`. -/
def THUMBNAIL_BUCKET : String := "thumbnails-bucket"

def PHOTO_BUCKET : String := "shared-photo-album"

def NUM_NOTIFICATIONS_TO_DISPLAY : Nat := 10

/-- ndb model `Notification`: message text and generation string. -/
structure Notification where
  message : String
  generation : String
deriving DecidableEq, Repr

/-- ndb model `ThumbnailReference`. -/
structure ThumbnailReference where
  thumbnail_name : String
  thumbnail_key : String
  labels : List String
  original_photo : String
deriving DecidableEq, Repr

/-- ndb model `Label`. -/
structure Label where
  label_name : String
  labeled_thumbnails : List String
deriving DecidableEq, Repr

/-- The whole mutable state the backend touches: the three datastore
kinds (in insertion order) and the GCS thumbnail bucket as an
association list from object name to object bytes. -/
structure Store where
  notifications : List Notification
  refs : List ThumbnailReference
  labelRecords : List Label
  thumbBucket : List (String × String)
deriving DecidableEq, Repr

/-- The empty datastore/bucket state. -/
def emptyStore : Store := ⟨[], [], [], []⟩

/-- A Pub/Sub push message, with the reply of each external service the
handler will consult recorded as an oracle field (`visionLabels` is the
`labelAnnotations` list of the Vision response, `None` when absent;
`thumbnailBytes` is the output of the image resize). -/
structure PubSubMessage where
  eventType : Option String
  objectId : Option String
  objectGeneration : Option String
  overwroteGeneration : Option String
  overwrittenByGeneration : Option String
  visionLabels : Option (List String)
  thumbnailBytes : String
deriving DecidableEq, Repr

/-! ### Helper functions of `main.py` -/

/-- Translation of `create_notification` (lines 169-188). -/
def create_notification (photoName : String) (eventType : Option String)
    (generation : String) (overwroteGeneration overwrittenByGeneration : Option String) :
    Notification :=
  let message :=
    if eventType = some "OBJECT_FINALIZE" then
      if overwroteGeneration.isSome then
        photoName ++ " was uploaded and overwrote an older version of itself."
      else
        photoName ++ " was uploaded."
    else if eventType = some "OBJECT_ARCHIVE" then
      if overwrittenByGeneration.isSome then
        photoName ++ " was overwritten by a newer version."
      else
        photoName ++ " was archived."
    else if eventType = some "OBJECT_DELETE" then
      if overwrittenByGeneration.isSome then
        photoName ++ " was overwritten by a newer version."
      else
        photoName ++ " was deleted."
    else ""
  ⟨message, generation⟩

/-- Translation of `get_original` (lines 198-199). -/
def get_original (photoName generation : String) : String :=
  "https://storage.googleapis.com/" ++ PHOTO_BUCKET ++ "/" ++ photoName
    ++ "?generation=" ++ generation

/-- The stop-word list of `get_labels` (line 253). -/
def ignoreWords : List String := ["of", "like", "the", "and", "a", "an", "with"]

/-- The body of the inner loop of `get_labels` (lines 258-266): add one
Vision label description, then its individual words, skipping entries
already present and stop words. -/
def addVisionLabel (labels : List String) (desc : String) : List String :=
  if desc ∈ labels then labels
  else
    (pySplit desc).foldl
      (fun ls d => if d ∉ ls ∧ d ∉ ignoreWords then ls ++ [d] else ls)
      (labels ++ [desc])

/-- Translation of `get_labels` (lines 227-268).  The Vision API reply
is passed in as `labelsFull` (the `labelAnnotations` list, `none` when
the response has no such key).  Returns `none` when
`photo_name.index(".jpg")` raises. -/
def get_labels (photoName : String) (labelsFull : Option (List String)) :
    Option (List String) :=
  (pyIndex photoName ".jpg").map fun i =>
    let labels := [strTake photoName i]
    match labelsFull with
    | none => labels
    | some ls => ls.foldl addVisionLabel labels

/-- One iteration of `add_thumbnail_reference_to_labels` (lines
273-282): `Label.query(label_name==label).get()` returns the first
stored record with that name; if none exists a new record is created
(appended to the store), otherwise the first matching record gets
`thumbnail_key` appended to its list. -/
def addKeyToLabel : List Label → String → String → List Label
  | [], l, k => [⟨l, [k]⟩]
  | r :: rs, l, k =>
    if r.label_name = l then
      { r with labeled_thumbnails := r.labeled_thumbnails ++ [k] } :: rs
    else
      r :: addKeyToLabel rs l k

/-- Translation of `add_thumbnail_reference_to_labels` (lines 272-282):
loop over the labels list, updating the Label store. -/
def add_thumbnail_reference_to_labels : List String → String → List Label → List Label
  | [], _, recs => recs
  | l :: ls, k, recs => add_thumbnail_reference_to_labels ls k (addKeyToLabel recs l k)

/-- One iteration of the loop of `remove_thumbnail_from_labels` (lines
288-296).  `none` models an exception: the `Label.query(...).get()`
returned `None` and `label.labeled_thumbnails` raises, or
`labeled_thumbnails.remove(k)` raises `ValueError` because `k` is
absent.  In both failure cases nothing was `put()`, so the store is
unchanged.  `list.remove` deletes the first occurrence only
(`List.erase`); when the list becomes empty the record is deleted
(`label.key.delete()`), otherwise it is rewritten in place. -/
def removeKeyFromLabel : List Label → String → String → Option (List Label)
  | [], _, _ => none
  | r :: rs, l, k =>
    if r.label_name = l then
      if k ∈ r.labeled_thumbnails then
        let ts := r.labeled_thumbnails.erase k
        if ts.isEmpty then some rs
        else some ({ r with labeled_thumbnails := ts } :: rs)
      else none
    else
      (removeKeyFromLabel rs l k).map (r :: ·)

/-- The loop of `remove_thumbnail_from_labels`; on exception
(`Except.error`) the store reflects the iterations already committed. -/
def removeLabelsLoop (k : String) : List String → List Label → Except (List Label) (List Label)
  | [], recs => .ok recs
  | l :: ls, recs =>
    match removeKeyFromLabel recs l k with
    | none => .error recs
    | some recs' => removeLabelsLoop k ls recs'

/-- Translation of `remove_thumbnail_from_labels` (lines 285-296): look
up the first `ThumbnailReference` with the given key (dereferencing
`None` raises, with no store change), then remove the key from the
Label record of each entry of its labels list in order. -/
def remove_thumbnail_from_labels (k : String) (refs : List ThumbnailReference)
    (recs : List Label) : Except (List Label) (List Label) :=
  match refs.find? (fun r => r.thumbnail_key == k) with
  | none => .error recs
  | some ref => removeLabelsLoop k ref.labels recs

/-- Replace the first element satisfying `p` by `f` of it. -/
def updateFirst (p : α → Bool) (f : α → α) : List α → List α
  | [] => []
  | x :: xs => if p x then f x :: xs else x :: updateFirst p f xs

/-- Delete the first element satisfying `p`. -/
def eraseFirstP (p : α → Bool) : List α → List α
  | [] => []
  | x :: xs => if p x then xs else x :: eraseFirstP p xs

/-- Models `store_thumbnail_in_gcs` (lines 209-213): `gcs.open(..., 'w')`
creates the object or overwrites an existing object of the same name. -/
def bucketPut (b : List (String × String)) (k v : String) : List (String × String) :=
  if (b.find? (fun e => e.1 == k)).isSome then
    updateFirst (fun e => e.1 == k) (fun _ => (k, v)) b
  else b ++ [(k, v)]

/-- Translation of `delete_thumbnail` (lines 217-224):
`images.delete_serving_url` touches only the external serving cache;
the `ThumbnailReference.query(...).get()` result is dereferenced
unguarded (`None` raises, store unchanged); then `gcs.delete` raises
`NotFoundError` when the bucket has no such object (the reference is
already deleted at that point). -/
def delete_thumbnail (k : String) (st : Store) : Except Store Store :=
  match st.refs.find? (fun r => r.thumbnail_key == k) with
  | none => .error st
  | some _ =>
    let st1 := { st with refs := eraseFirstP (fun r => r.thumbnail_key == k) st.refs }
    if (st1.thumbBucket.find? (fun e => e.1 == k)).isSome then
      .ok { st1 with thumbBucket := eraseFirstP (fun e => e.1 == k) st1.thumbBucket }
    else .error st1

/-- The duplicate check of lines 133-135: is a `Notification` with the
same `(message, generation)` pair already stored? -/
def isDuplicate (msg : PubSubMessage) (photoName : String) (st : Store) : Bool :=
  let n := create_notification photoName msg.eventType (pyStr msg.objectGeneration)
    msg.overwroteGeneration msg.overwrittenByGeneration
  (st.notifications.find?
    (fun m => m.message == n.message && m.generation == n.generation)).isSome

/-- The thumbnail-key construction of lines 125-126:
`photo_name[:index] + generation_number + photo_name[index:]` where
`index = photo_name.index(".jpg")`. -/
def mkThumbnailKey (photoName generation : String) : Option String :=
  (pyIndex photoName ".jpg").map fun i =>
    strTake photoName i ++ generation ++ strDrop photoName i

/-- Translation of `ReceiveMessage.post` (lines 108-166).  The result is
`.ok st'` for a run that reaches the end of the handler, `.error st'`
for a run that raises, where `st'` is the store at that moment. -/
def receiveMessage (msg : PubSubMessage) (st : Store) : Except Store Store :=
  match msg.objectId with
  | none => .error st
  | some photoName =>
    let generationNumber := pyStr msg.objectGeneration
    match pyIndex photoName ".jpg" with
    | none => .error st
    | some index =>
      let thumbnailKey := strTake photoName index ++ generationNumber
        ++ strDrop photoName index
      if isDuplicate msg photoName st then .ok st
      else
        let newNotification := create_notification photoName msg.eventType
          generationNumber msg.overwroteGeneration msg.overwrittenByGeneration
        if newNotification.message = "" then .ok st
        else
          let st := { st with notifications := st.notifications ++ [newNotification] }
          if msg.eventType = some "OBJECT_FINALIZE" then
            let st := { st with
              thumbBucket := bucketPut st.thumbBucket thumbnailKey msg.thumbnailBytes }
            let originalPhoto := get_original photoName generationNumber
            match get_labels photoName msg.visionLabels with
            | none => .error st
            | some labels0 =>
              let labels := labels0 ++ [photoName, strTake photoName index]
              let st := { st with refs := st.refs ++
                [(⟨photoName, thumbnailKey, labels, originalPhoto⟩ : ThumbnailReference)] }
              .ok { st with labelRecords :=
                add_thumbnail_reference_to_labels labels thumbnailKey st.labelRecords }
          else if msg.eventType = some "OBJECT_DELETE"
              ∨ msg.eventType = some "OBJECT_ARCHIVE" then
            match remove_thumbnail_from_labels thumbnailKey st.refs st.labelRecords with
            | .error recs => .error { st with labelRecords := recs }
            | .ok recs => delete_thumbnail thumbnailKey { st with labelRecords := recs }
          else .ok st

/-! ### Presentation handlers (`main.py` lines 61-104)

Each GET handler is a state transformer returning the template values it
renders together with the store; every datastore access in the source is
a read (`query`/`fetch`/`get`), so the store component of the result is
the input store.  `servingUrl` abstracts `get_thumbnail`
(blobstore/images serving-URL generation, external to the stores). -/

/-- Python `collections.OrderedDict` insertion: an existing key keeps
its position and gets the new value; a fresh key is appended. -/
def odInsert (d : List (α × β)) (k : α) (v : β) [BEq α] : List (α × β) :=
  if (d.find? (fun e => e.1 == k)).isSome then
    updateFirst (fun e => e.1 == k) (fun _ => (k, v)) d
  else d ++ [(k, v)]

/-- Translation of `MainHandler.get` (lines 61-68): the ten most recent
notifications, date-descending. -/
def mainHandler (st : Store) : List Notification × Store :=
  ((st.notifications.reverse).take NUM_NOTIFICATIONS_TO_DISPLAY, st)

/-- Translation of `PhotosHandler.get` (lines 71-83): all thumbnail
references date-descending, keyed by serving URL. -/
def photosHandler (servingUrl : String → String) (st : Store) :
    List (String × ThumbnailReference) × Store :=
  (st.refs.reverse.foldl
    (fun d r => odInsert d (servingUrl r.thumbnail_key) r) [], st)

/-- Translation of `SearchHandler.get` (lines 86-104): the thumbnails
carrying the searched label, reversed. -/
def searchHandler (servingUrl : String → String) (searchTerm : String) (st : Store) :
    (List (String × Option ThumbnailReference)) × Store :=
  let d :=
    match st.labelRecords.find? (fun r => r.label_name == searchTerm) with
    | none => []
    | some lab =>
      lab.labeled_thumbnails.foldl
        (fun (d : List (String × Option ThumbnailReference)) k =>
          odInsert d (servingUrl k)
            (st.refs.find? (fun r => r.thumbnail_key == k)))
        []
  (d.reverse, st)

/-! ### Reachability and invariants -/

/-- Stores reachable from the empty store by handler runs that complete
without raising. -/
inductive Reachable : Store → Prop
  | init : Reachable emptyStore
  | step {st st' : Store} (msg : PubSubMessage) :
      Reachable st → receiveMessage msg st = .ok st' → Reachable st'

/-- Number of occurrences of `k` across the `labeled_thumbnails` of the
stored Label records named `l`. -/
def labelCount : List Label → String → String → Nat
  | [], _, _ => 0
  | r :: rs, l, k =>
    (if r.label_name = l then r.labeled_thumbnails.count k else 0) + labelCount rs l k

/-- Number of occurrences of `l` across the `labels` of the stored
references whose key is `k`. -/
def refsCount : List ThumbnailReference → String → String → Nat
  | [], _, _ => 0
  | r :: rs, l, k =>
    (if r.thumbnail_key = k then r.labels.count l else 0) + refsCount rs l k

/-- The label names present in the Label store, in order. -/
def labelNames (recs : List Label) : List String :=
  recs.map (fun r => r.label_name)

/-- The cross-consistency property between the ThumbnailReference store
and the Label store. -/
def consistent (st : Store) : Prop :=
  (∀ r ∈ st.refs, ∀ l ∈ r.labels,
    ∃ rec ∈ st.labelRecords, rec.label_name = l ∧ r.thumbnail_key ∈ rec.labeled_thumbnails) ∧
  (∀ rec ∈ st.labelRecords, ∀ k ∈ rec.labeled_thumbnails,
    ∃ r ∈ st.refs, r.thumbnail_key = k ∧ rec.label_name ∈ r.labels)

/-- The inductive invariant of the store. -/
structure StoreInv (st : Store) : Prop where
  nodupNames : (labelNames st.labelRecords).Nodup
  nonemptyRecords : ∀ rec ∈ st.labelRecords, rec.labeled_thumbnails ≠ []
  counts : ∀ l k, labelCount st.labelRecords l k = refsCount st.refs l k
  notifUnique : st.notifications.Pairwise
    (fun a b => ¬(a.message = b.message ∧ a.generation = b.generation))

/-! ### Lemmas: the substring search -/

/-- `subFindIdx` succeeds exactly when the needle occurs as a
contiguous sublist. -/
theorem subFindIdx_isSome_iff (hay needle : List Char) :
    (subFindIdx hay needle).isSome ↔ ∃ pre post, hay = pre ++ needle ++ post := by
  induction hay with
  | nil =>
    constructor
    · intro h
      simp only [subFindIdx] at h
      split at h
      · next hne => exact ⟨[], [], by simp [List.isEmpty_iff.mp hne]⟩
      · simp at h
    · rintro ⟨pre, post, hp⟩
      have h1 : pre = [] ∧ needle ++ post = [] := List.append_eq_nil.mp (by simpa using hp.symm)
      have h2 : needle = [] := (List.append_eq_nil.mp h1.2).1
      simp [subFindIdx, h2]
  | cons c cs ih =>
    simp only [subFindIdx]
    by_cases hpre : needle.isPrefixOf (c :: cs)
    · rw [if_pos hpre]
      simp only [Option.isSome_some, true_iff]
      obtain ⟨t, ht⟩ := List.isPrefixOf_iff_prefix.mp hpre
      exact ⟨[], t, by simp [← ht]⟩
    · rw [if_neg hpre]
      rw [show ((subFindIdx cs needle).map (· + 1)).isSome = (subFindIdx cs needle).isSome by
        cases subFindIdx cs needle <;> rfl]
      rw [ih]
      constructor
      · rintro ⟨pre, post, hp⟩
        exact ⟨c :: pre, post, by simp [hp]⟩
      · rintro ⟨pre, post, hp⟩
        cases pre with
        | nil =>
          exfalso
          exact hpre ( List.isPrefixOf_iff_prefix.mpr ⟨post, by simpa using hp.symm⟩)
        | cons d pre' =>
          simp only [List.cons_append, List.cons.injEq] at hp
          exact ⟨pre', post, hp.2⟩

/-- `pyIndex` succeeds exactly when the pattern occurs as a substring. -/
theorem pyIndex_isSome_iff (s pat : String) :
    (pyIndex s pat).isSome ↔ ∃ pre post, s.data = pre ++ pat.data ++ post :=
  subFindIdx_isSome_iff s.data pat.data

/-- The thumbnail-key construction is injective in the generation for a
fixed photo name. -/
theorem mkThumbnailKey_inj_generation {n g₁ g₂ k : String}
    (h₁ : mkThumbnailKey n g₁ = some k) (h₂ : mkThumbnailKey n g₂ = some k) :
    g₁ = g₂ := by
  unfold mkThumbnailKey at h₁ h₂
  cases hidx : pyIndex n ".jpg" with
  | none => rw [hidx] at h₁; simp at h₁
  | some i =>
    rw [hidx] at h₁ h₂
    simp only [Option.map_some', Option.some.injEq] at h₁ h₂
    have h3 : strTake n i ++ g₁ ++ strDrop n i = strTake n i ++ g₂ ++ strDrop n i :=
      h₁.trans h₂.symm
    have h4 : (strTake n i).data ++ (g₁.data ++ (strDrop n i).data)
        = (strTake n i).data ++ (g₂.data ++ (strDrop n i).data) := by
      have := congrArg String.data h3
      simpa using this
    have h5 := List.append_cancel_left h4
    exact String.ext (List.append_cancel_right h5)

/-! ### Lemmas: `labelCount` and `addKeyToLabel` -/

/-- A label name absent from the store contributes no occurrences. -/
theorem labelCount_eq_zero_of_not_mem {recs : List Label} {l : String}
    (h : l ∉ labelNames recs) (k : String) : labelCount recs l k = 0 := by
  induction recs with
  | nil => rfl
  | cons r rs ih =>
    simp only [labelNames, List.map_cons, List.mem_cons, not_or] at h
    have h1 : ¬ r.label_name = l := fun hc => h.1 hc.symm
    simp [labelCount, h1, ih (by simpa [labelNames] using h.2)]

/-- Occurrence counting after one `addKeyToLabel` step. -/
theorem labelCount_addKeyToLabel (recs : List Label) (l₀ k l k' : String) :
    labelCount (addKeyToLabel recs l₀ k) l k' =
      labelCount recs l k' + (if l = l₀ ∧ k' = k then 1 else 0) := by
  induction recs with
  | nil =>
    simp only [addKeyToLabel, labelCount, List.count_singleton, beq_iff_eq,
      Nat.add_zero, Nat.zero_add]
    by_cases h1 : l = l₀
    · subst h1
      by_cases h2 : k' = k
      · subst h2; simp
      · have h2' : ¬ k = k' := fun hc => h2 hc.symm
        simp [h2, h2']
    · have h1' : ¬ l₀ = l := fun hc => h1 hc.symm
      simp [h1, h1']
  | cons r rs ih =>
    simp only [addKeyToLabel]
    by_cases h : r.label_name = l₀
    · rw [if_pos h]
      simp only [labelCount, List.count_append, List.count_singleton, beq_iff_eq]
      by_cases h1 : l = l₀
      · subst h1
        rw [if_pos h, if_pos h]
        by_cases h2 : k' = k
        · subst h2; simp; omega
        · have h2' : ¬ k = k' := fun hc => h2 hc.symm
          simp [h2, h2']
      · have h1' : ¬ r.label_name = l := fun hc => h1 (hc.symm.trans h)
        simp [h1', h1]
    · rw [if_neg h]
      simp only [labelCount, ih]
      omega

/-- The label names after one `addKeyToLabel` step: unchanged when a
record with that name exists, otherwise the new name is appended. -/
theorem labelNames_addKeyToLabel (recs : List Label) (l k : String) :
    labelNames (addKeyToLabel recs l k) =
      if l ∈ labelNames recs then labelNames recs else labelNames recs ++ [l] := by
  induction recs with
  | nil => simp [addKeyToLabel, labelNames]
  | cons r rs ih =>
    by_cases h : r.label_name = l
    · simp [addKeyToLabel, h, labelNames]
    · have h' : ¬ l = r.label_name := fun hc => h hc.symm
      simp only [addKeyToLabel] at ih ⊢
      rw [if_neg h]
      simp only [labelNames, List.map_cons] at ih ⊢
      rw [ih]
      by_cases hm : l ∈ List.map (fun r => r.label_name) rs
      · simp [List.mem_cons, hm, h']
      · simp [List.mem_cons, hm, h']

/-- `addKeyToLabel` keeps label names without duplicates. -/
theorem nodup_labelNames_addKeyToLabel {recs : List Label} (l k : String)
    (h : (labelNames recs).Nodup) : (labelNames (addKeyToLabel recs l k)).Nodup := by
  rw [labelNames_addKeyToLabel]
  split
  · exact h
  · next hm => simpa [List.nodup_append] using ⟨h, fun hc => hm hc⟩

/-- `addKeyToLabel` keeps every record's thumbnail list non-empty. -/
theorem nonempty_addKeyToLabel {recs : List Label} {l k : String}
    (h : ∀ rec ∈ recs, rec.labeled_thumbnails ≠ []) :
    ∀ rec ∈ addKeyToLabel recs l k, rec.labeled_thumbnails ≠ [] := by
  induction recs with
  | nil =>
    intro rec hrec
    simp only [addKeyToLabel, List.mem_singleton] at hrec
    subst hrec
    simp
  | cons r rs ih =>
    intro rec hrec
    simp only [addKeyToLabel] at hrec
    by_cases hn : r.label_name = l
    · rw [if_pos hn] at hrec
      rcases List.mem_cons.mp hrec with rfl | h1
      · simp
      · exact h rec (List.mem_cons_of_mem _ h1)
    · rw [if_neg hn] at hrec
      rcases List.mem_cons.mp hrec with rfl | h1
      · exact h rec (List.mem_cons_self _ _)
      · exact ih (fun rec h2 => h rec (List.mem_cons_of_mem _ h2)) rec h1

/-! ### Lemmas: the add loop -/

/-- Occurrence counting after `add_thumbnail_reference_to_labels`: each
occurrence of a label in the processed list contributes one occurrence
of the key. -/
theorem labelCount_addAll (ls : List String) (k : String) (recs : List Label)
    (l k' : String) :
    labelCount (add_thumbnail_reference_to_labels ls k recs) l k' =
      labelCount recs l k' + (if k' = k then ls.count l else 0) := by
  induction ls generalizing recs with
  | nil => simp [add_thumbnail_reference_to_labels]
  | cons l₀ ls ih =>
    simp only [add_thumbnail_reference_to_labels, ih, labelCount_addKeyToLabel,
      List.count_cons, beq_iff_eq]
    by_cases h1 : l = l₀
    · subst h1
      by_cases h2 : k' = k
      · subst h2
        simp
        omega
      · simp [h2]
    · have h1' : ¬ l₀ = l := fun hc => h1 hc.symm
      by_cases h2 : k' = k
      · subst h2
        simp [h1, h1']
      · simp [h1, h2]

/-- Label names without duplicates is preserved by the add loop. -/
theorem nodup_labelNames_addAll (ls : List String) (k : String) {recs : List Label}
    (h : (labelNames recs).Nodup) :
    (labelNames (add_thumbnail_reference_to_labels ls k recs)).Nodup := by
  induction ls generalizing recs with
  | nil => exact h
  | cons l₀ ls ih =>
    exact ih (nodup_labelNames_addKeyToLabel l₀ k h)

/-- Non-empty thumbnail lists are preserved by the add loop. -/
theorem nonempty_addAll (ls : List String) (k : String) {recs : List Label}
    (h : ∀ rec ∈ recs, rec.labeled_thumbnails ≠ []) :
    ∀ rec ∈ add_thumbnail_reference_to_labels ls k recs,
      rec.labeled_thumbnails ≠ [] := by
  induction ls generalizing recs with
  | nil => exact h
  | cons l₀ ls ih =>
    exact ih (nonempty_addKeyToLabel h)

/-! ### Lemmas: counts versus membership -/

/-- A positive occurrence count yields a witnessing Label record. -/
theorem exists_rec_of_labelCount_pos {recs : List Label} {l k : String}
    (h : 0 < labelCount recs l k) :
    ∃ rec ∈ recs, rec.label_name = l ∧ k ∈ rec.labeled_thumbnails := by
  induction recs with
  | nil => simp [labelCount] at h
  | cons r rs ih =>
    simp only [labelCount] at h
    by_cases h1 : 0 < labelCount rs l k
    · obtain ⟨rec, hm, hp⟩ := ih h1
      exact ⟨rec, List.mem_cons_of_mem _ hm, hp⟩
    · have h2 : 0 < if r.label_name = l then r.labeled_thumbnails.count k else 0 := by
        omega
      by_cases h3 : r.label_name = l
      · rw [if_pos h3] at h2
        exact ⟨r, List.mem_cons_self _ _, h3, List.count_pos_iff.mp h2⟩
      · rw [if_neg h3] at h2
        omega

/-- A record membership yields a positive occurrence count. -/
theorem labelCount_pos_of_mem {recs : List Label} {rec : Label} {k : String}
    (hr : rec ∈ recs) (hk : k ∈ rec.labeled_thumbnails) :
    0 < labelCount recs rec.label_name k := by
  induction recs with
  | nil => simp at hr
  | cons r rs ih =>
    simp only [labelCount]
    rcases List.mem_cons.mp hr with rfl | h1
    · rw [if_pos rfl]
      have := List.count_pos_iff.mpr hk
      omega
    · have := ih h1
      omega

/-- A positive `refsCount` yields a witnessing reference. -/
theorem exists_ref_of_refsCount_pos {refs : List ThumbnailReference} {l k : String}
    (h : 0 < refsCount refs l k) :
    ∃ r ∈ refs, r.thumbnail_key = k ∧ l ∈ r.labels := by
  induction refs with
  | nil => simp [refsCount] at h
  | cons r rs ih =>
    simp only [refsCount] at h
    by_cases h1 : 0 < refsCount rs l k
    · obtain ⟨r', hm, hp⟩ := ih h1
      exact ⟨r', List.mem_cons_of_mem _ hm, hp⟩
    · have h2 : 0 < if r.thumbnail_key = k then r.labels.count l else 0 := by omega
      by_cases h3 : r.thumbnail_key = k
      · rw [if_pos h3] at h2
        exact ⟨r, List.mem_cons_self _ _, h3, List.count_pos_iff.mp h2⟩
      · rw [if_neg h3] at h2
        omega

/-- A reference membership bounds `refsCount` from below. -/
theorem refsCount_ge_of_mem {refs : List ThumbnailReference} {r : ThumbnailReference}
    (hr : r ∈ refs) (l : String) :
    r.labels.count l ≤ refsCount refs l r.thumbnail_key := by
  induction refs with
  | nil => simp at hr
  | cons r₀ rs ih =>
    simp only [refsCount]
    rcases List.mem_cons.mp hr with rfl | h1
    · rw [if_pos rfl]
      omega
    · have := ih h1
      omega

/-! ### Lemmas: `refsCount` under append and first-match erasure -/

theorem refsCount_append (refs₁ refs₂ : List ThumbnailReference) (l k : String) :
    refsCount (refs₁ ++ refs₂) l k = refsCount refs₁ l k + refsCount refs₂ l k := by
  induction refs₁ with
  | nil => simp [refsCount]
  | cons r rs ih =>
    simp only [List.cons_append, refsCount, List.append_eq, ih]
    omega

theorem refsCount_singleton (r : ThumbnailReference) (l k : String) :
    refsCount [r] l k = if r.thumbnail_key = k then r.labels.count l else 0 := by
  simp [refsCount]

/-- Erasing the first reference matching the key removes exactly its
contribution from `refsCount`. -/
theorem refsCount_eraseFirstP {refs : List ThumbnailReference} {k₀ : String}
    {ref : ThumbnailReference}
    (h : refs.find? (fun r => r.thumbnail_key == k₀) = some ref) (l k : String) :
    refsCount (eraseFirstP (fun r => r.thumbnail_key == k₀) refs) l k
      + (if ref.thumbnail_key = k then ref.labels.count l else 0) = refsCount refs l k := by
  induction refs with
  | nil => simp at h
  | cons r rs ih =>
    by_cases hp : (fun r : ThumbnailReference => r.thumbnail_key == k₀) r = true
    · rw [List.find?_cons_of_pos (p := fun x : ThumbnailReference => x.thumbnail_key == k₀) _ hp] at h
      injection h with h
      subst h
      simp only [eraseFirstP]
      rw [if_pos hp]
      simp only [refsCount]
      omega
    · rw [List.find?_cons_of_neg (p := fun x : ThumbnailReference => x.thumbnail_key == k₀) _
        (by simpa using hp)] at h
      simp only [eraseFirstP]
      rw [if_neg hp]
      simp only [refsCount, ← ih h]
      omega

/-! ### Lemmas: one remove iteration -/

/-- A list whose erase of a member is empty is the singleton of that
member. -/
theorem eq_singleton_of_erase_eq_nil {ts : List String} {k : String}
    (hk : k ∈ ts) (h0 : ts.erase k = []) : ts = [k] := by
  have hlen := List.length_erase_of_mem hk
  rw [h0] at hlen
  have hpos : 0 < ts.length := List.length_pos.mpr (by rintro rfl; simp at hk)
  have hlen1 : ts.length = 1 := by simp at hlen; omega
  obtain ⟨a, ha⟩ := List.length_eq_one.mp hlen1
  rw [ha] at hk
  simp at hk
  rw [ha, hk]

/-- Occurrence counting after one successful remove iteration: exactly
one occurrence of the key disappears, at the processed label name. -/
theorem removeKeyFromLabel_counts {recs recs' : List Label} {l₀ k : String}
    (h : removeKeyFromLabel recs l₀ k = some recs') (l k' : String) :
    labelCount recs' l k' + (if l = l₀ ∧ k' = k then 1 else 0)
      = labelCount recs l k' := by
  induction recs generalizing recs' with
  | nil => simp [removeKeyFromLabel] at h
  | cons r rs ih =>
    simp only [removeKeyFromLabel] at h
    by_cases hname : r.label_name = l₀
    · rw [if_pos hname] at h
      by_cases hk : k ∈ r.labeled_thumbnails
      · rw [if_pos hk] at h
        by_cases hemp : (r.labeled_thumbnails.erase k).isEmpty = true
        · rw [if_pos hemp] at h
          injection h with h
          subst h
          have hsingle : r.labeled_thumbnails = [k] :=
            eq_singleton_of_erase_eq_nil hk (List.isEmpty_iff.mp hemp)
          simp only [labelCount, hsingle, List.count_singleton, beq_iff_eq, hname]
          by_cases h1 : l = l₀
          · subst h1
            rw [if_pos rfl]
            by_cases h2 : k' = k
            · subst h2
              simp
              omega
            · have h2' : ¬ k = k' := fun hc => h2 hc.symm
              simp [h2, h2']
          · have h1' : ¬ l₀ = l := fun hc => h1 hc.symm
            have h1'' : ¬ (l = l₀ ∧ k' = k) := fun hc => h1 hc.1
            simp [h1', h1'']
        · rw [if_neg hemp] at h
          injection h with h
          subst h
          simp only [labelCount, hname]
          by_cases h1 : l = l₀
          · subst h1
            rw [if_pos rfl, if_pos rfl]
            by_cases h2 : k' = k
            · subst h2
              have hcnt := List.count_pos_iff.mpr hk
              simp only [List.count_erase_self, and_self, if_true]
              omega
            · rw [List.count_erase_of_ne h2]
              simp [h2]
          · have h1' : ¬ l₀ = l := fun hc => h1 hc.symm
            have h1'' : ¬ (l = l₀ ∧ k' = k) := fun hc => h1 hc.1
            simp [h1', h1'']
      · rw [if_neg hk] at h
        simp at h
    · rw [if_neg hname] at h
      cases hrec : removeKeyFromLabel rs l₀ k with
      | none => rw [hrec] at h; simp at h
      | some rs' =>
        rw [hrec] at h
        simp only [Option.map_some'] at h
        injection h with h
        subst h
        simp only [labelCount]
        have := ih hrec
        omega

/-- One remove iteration only updates or deletes records: the sequence
of label names of the result is a sublist of the original one. -/
theorem removeKeyFromLabel_names {recs recs' : List Label} {l₀ k : String}
    (h : removeKeyFromLabel recs l₀ k = some recs') :
    List.Sublist (labelNames recs') (labelNames recs) := by
  induction recs generalizing recs' with
  | nil => simp [removeKeyFromLabel] at h
  | cons r rs ih =>
    simp only [removeKeyFromLabel] at h
    by_cases hname : r.label_name = l₀
    · rw [if_pos hname] at h
      by_cases hk : k ∈ r.labeled_thumbnails
      · rw [if_pos hk] at h
        by_cases hemp : (r.labeled_thumbnails.erase k).isEmpty = true
        · rw [if_pos hemp] at h
          injection h with h
          subst h
          exact List.sublist_cons_self _ _
        · rw [if_neg hemp] at h
          injection h with h
          subst h
          simp [labelNames]
      · rw [if_neg hk] at h
        simp at h
    · rw [if_neg hname] at h
      cases hrec : removeKeyFromLabel rs l₀ k with
      | none => rw [hrec] at h; simp at h
      | some rs' =>
        rw [hrec] at h
        simp only [Option.map_some'] at h
        injection h with h
        subst h
        simp only [labelNames, List.map_cons]
        exact List.Sublist.cons₂ _ (ih hrec)

/-- One remove iteration keeps every remaining thumbnail list
non-empty (a record that would become empty is deleted instead). -/
theorem removeKeyFromLabel_nonempty {recs recs' : List Label} {l₀ k : String}
    (h : removeKeyFromLabel recs l₀ k = some recs')
    (hne : ∀ rec ∈ recs, rec.labeled_thumbnails ≠ []) :
    ∀ rec ∈ recs', rec.labeled_thumbnails ≠ [] := by
  induction recs generalizing recs' with
  | nil => simp [removeKeyFromLabel] at h
  | cons r rs ih =>
    simp only [removeKeyFromLabel] at h
    by_cases hname : r.label_name = l₀
    · rw [if_pos hname] at h
      by_cases hk : k ∈ r.labeled_thumbnails
      · rw [if_pos hk] at h
        by_cases hemp : (r.labeled_thumbnails.erase k).isEmpty = true
        · rw [if_pos hemp] at h
          injection h with h
          subst h
          exact fun rec hm => hne rec (List.mem_cons_of_mem _ hm)
        · rw [if_neg hemp] at h
          injection h with h
          subst h
          intro rec hm
          rcases List.mem_cons.mp hm with rfl | hm'
          · simpa using fun hc => hemp (List.isEmpty_iff.mpr hc)
          · exact hne rec (List.mem_cons_of_mem _ hm')
      · rw [if_neg hk] at h
        simp at h
    · rw [if_neg hname] at h
      cases hrec : removeKeyFromLabel rs l₀ k with
      | none => rw [hrec] at h; simp at h
      | some rs' =>
        rw [hrec] at h
        simp only [Option.map_some'] at h
        injection h with h
        subst h
        intro rec hm
        rcases List.mem_cons.mp hm with rfl | hm'
        · exact hne rec (List.mem_cons_self _ _)
        · exact ih hrec (fun rec h2 => hne rec (List.mem_cons_of_mem _ h2)) rec hm'

/-- One remove iteration succeeds when the Label store has no duplicate
names and holds at least one occurrence of the key at the given name. -/
theorem removeKeyFromLabel_isSome {recs : List Label} {l₀ k : String}
    (hnd : (labelNames recs).Nodup) (hpos : 0 < labelCount recs l₀ k) :
    ∃ recs', removeKeyFromLabel recs l₀ k = some recs' := by
  induction recs with
  | nil => simp [labelCount] at hpos
  | cons r rs ih =>
    have hnd' := List.nodup_cons.mp
      (show (r.label_name :: labelNames rs).Nodup from hnd)
    by_cases hname : r.label_name = l₀
    · have hnotin : l₀ ∉ labelNames rs := hname ▸ hnd'.1
      have hz : labelCount rs l₀ k = 0 := labelCount_eq_zero_of_not_mem hnotin k
      have hcnt : 0 < r.labeled_thumbnails.count k := by
        simp only [labelCount, if_pos hname] at hpos
        omega
      have hk : k ∈ r.labeled_thumbnails := List.count_pos_iff.mp hcnt
      by_cases hemp : (r.labeled_thumbnails.erase k).isEmpty = true
      · exact ⟨rs, by
          simp only [removeKeyFromLabel]
          rw [if_pos hname, if_pos hk, if_pos hemp]⟩
      · exact ⟨{ r with labeled_thumbnails := r.labeled_thumbnails.erase k } :: rs, by
          simp only [removeKeyFromLabel]
          rw [if_pos hname, if_pos hk, if_neg hemp]⟩
    · have hpos' : 0 < labelCount rs l₀ k := by
        simp only [labelCount, if_neg hname] at hpos
        omega
      obtain ⟨rs', hrs⟩ := ih (by simpa [labelNames] using hnd'.2) hpos'
      exact ⟨r :: rs', by
        simp only [removeKeyFromLabel]
        rw [if_neg hname, hrs]
        rfl⟩

/-! ### Lemmas: the remove loop -/

/-- Occurrence counting across a completed remove loop: one occurrence
of the key disappears per occurrence of each label in the processed
list. -/
theorem removeLabelsLoop_ok_counts {k : String} {ls : List String}
    {recs recs' : List Label}
    (h : removeLabelsLoop k ls recs = .ok recs') (l k' : String) :
    labelCount recs' l k' + (if k' = k then ls.count l else 0)
      = labelCount recs l k' := by
  induction ls generalizing recs with
  | nil =>
    simp only [removeLabelsLoop] at h
    injection h with h
    subst h
    simp
  | cons l₀ ls ih =>
    simp only [removeLabelsLoop] at h
    cases hstep : removeKeyFromLabel recs l₀ k with
    | none => rw [hstep] at h; cases h
    | some recs₁ =>
      rw [hstep] at h
      have h1 := removeKeyFromLabel_counts hstep l k'
      have h2 := ih h
      simp only [List.count_cons, beq_iff_eq] at h1 h2 ⊢
      by_cases e1 : k' = k
      · subst e1
        rw [if_pos rfl] at h2 ⊢
        by_cases e2 : l = l₀
        · subst e2
          rw [if_pos ⟨rfl, rfl⟩] at h1
          rw [if_pos rfl]
          omega
        · have e2' : ¬ l₀ = l := fun hc => e2 hc.symm
          rw [if_neg (fun hc => e2 hc.1)] at h1
          rw [if_neg e2']
          omega
      · rw [if_neg e1] at h2 ⊢
        rw [if_neg (fun hc => e1 hc.2)] at h1
        omega

/-- A completed remove loop implies the store held at least as many
occurrences of the key, per label, as the processed list. -/
theorem removeLabelsLoop_ok_le {k : String} {ls : List String}
    {recs recs' : List Label}
    (h : removeLabelsLoop k ls recs = .ok recs') (l : String) :
    ls.count l ≤ labelCount recs l k := by
  have := removeLabelsLoop_ok_counts h l k
  rw [if_pos rfl] at this
  omega

/-- A completed remove loop never introduces label names. -/
theorem removeLabelsLoop_ok_names {k : String} {ls : List String}
    {recs recs' : List Label}
    (h : removeLabelsLoop k ls recs = .ok recs') :
    List.Sublist (labelNames recs') (labelNames recs) := by
  induction ls generalizing recs with
  | nil =>
    simp only [removeLabelsLoop] at h
    injection h with h
    subst h
    exact List.Sublist.refl _
  | cons l₀ ls ih =>
    simp only [removeLabelsLoop] at h
    cases hstep : removeKeyFromLabel recs l₀ k with
    | none => rw [hstep] at h; cases h
    | some recs₁ =>
      rw [hstep] at h
      exact (ih h).trans (removeKeyFromLabel_names hstep)

/-- A completed remove loop keeps every thumbnail list non-empty. -/
theorem removeLabelsLoop_ok_nonempty {k : String} {ls : List String}
    {recs recs' : List Label}
    (h : removeLabelsLoop k ls recs = .ok recs')
    (hne : ∀ rec ∈ recs, rec.labeled_thumbnails ≠ []) :
    ∀ rec ∈ recs', rec.labeled_thumbnails ≠ [] := by
  induction ls generalizing recs with
  | nil =>
    simp only [removeLabelsLoop] at h
    injection h with h
    subst h
    exact hne
  | cons l₀ ls ih =>
    simp only [removeLabelsLoop] at h
    cases hstep : removeKeyFromLabel recs l₀ k with
    | none => rw [hstep] at h; cases h
    | some recs₁ =>
      rw [hstep] at h
      exact ih h (removeKeyFromLabel_nonempty hstep hne)

/-- The remove loop completes whenever the store (with distinct label
names and non-empty lists) holds at least as many occurrences of the
key, per label, as the processed list. -/
theorem removeLabelsLoop_ok_of_le {k : String} {ls : List String} {recs : List Label}
    (hnd : (labelNames recs).Nodup)
    (hle : ∀ l, ls.count l ≤ labelCount recs l k) :
    ∃ recs', removeLabelsLoop k ls recs = .ok recs' := by
  induction ls generalizing recs with
  | nil => exact ⟨recs, rfl⟩
  | cons l₀ ls ih =>
    have hpos : 0 < labelCount recs l₀ k := by
      have h0 := hle l₀
      have h1 : 0 < List.count l₀ (l₀ :: ls) :=
        List.count_pos_iff.mpr (List.mem_cons_self _ _)
      omega
    obtain ⟨recs₁, hstep⟩ := removeKeyFromLabel_isSome hnd hpos
    have hnd₁ : (labelNames recs₁).Nodup :=
      (removeKeyFromLabel_names hstep).nodup hnd
    have hle₁ : ∀ l, ls.count l ≤ labelCount recs₁ l k := by
      intro l
      have heq := removeKeyFromLabel_counts hstep l k
      have hl := hle l
      simp only [List.count_cons, beq_iff_eq] at hl
      by_cases e : l = l₀
      · rw [if_pos (e ▸ rfl)] at hl
        rw [if_pos ⟨e, rfl⟩] at heq
        omega
      · rw [if_neg (fun hc => e hc.symm)] at hl
        rw [if_neg (fun hc => e hc.1)] at heq
        omega
    obtain ⟨recs', hloop⟩ := ih hnd₁ hle₁
    refine ⟨recs', ?_⟩
    simp only [removeLabelsLoop]
    rw [hstep]
    exact hloop

/-! ### Lemmas: consistency from counts -/

/-- The two-way membership consistency follows from the occurrence-count
balance. -/
theorem consistent_of_counts {st : Store}
    (h : ∀ l k, labelCount st.labelRecords l k = refsCount st.refs l k) :
    consistent st := by
  constructor
  · intro r hr l hl
    have h1 : 0 < refsCount st.refs l r.thumbnail_key :=
      lt_of_lt_of_le (List.count_pos_iff.mpr hl) (refsCount_ge_of_mem hr l)
    have h2 : 0 < labelCount st.labelRecords l r.thumbnail_key := by
      rw [h]; exact h1
    exact exists_rec_of_labelCount_pos h2
  · intro rec hrec k hk
    have h1 : 0 < labelCount st.labelRecords rec.label_name k :=
      labelCount_pos_of_mem hrec hk
    have h2 : 0 < refsCount st.refs rec.label_name k := by
      rw [← h]; exact h1
    exact exists_ref_of_refsCount_pos h2

/-! ### Dissecting a completed handler run -/

/-- A completed `remove_thumbnail_from_labels` call yields the reference
found and a completed loop. -/
theorem remove_thumbnail_ok {k : String} {refs : List ThumbnailReference}
    {recs recs' : List Label}
    (h : remove_thumbnail_from_labels k refs recs = .ok recs') :
    ∃ ref, refs.find? (fun r => r.thumbnail_key == k) = some ref ∧
      removeLabelsLoop k ref.labels recs = .ok recs' := by
  unfold remove_thumbnail_from_labels at h
  cases hf : refs.find? (fun r => r.thumbnail_key == k) with
  | none => rw [hf] at h; simp at h
  | some ref => rw [hf] at h; exact ⟨ref, rfl, h⟩

/-- Every completed handler run is of one of three shapes: a duplicate
message (store untouched), a metadata-update message with empty
notification text (store untouched), or a fresh create/delete/archive
message with the corresponding pipeline effect. -/
theorem recv_ok_shape {msg : PubSubMessage} {st st' : Store}
    (hok : receiveMessage msg st = .ok st') :
    ∃ photoName index,
      msg.objectId = some photoName ∧
      pyIndex photoName ".jpg" = some index ∧
      ((isDuplicate msg photoName st = true ∧ st' = st) ∨
       (isDuplicate msg photoName st = false ∧
         (create_notification photoName msg.eventType (pyStr msg.objectGeneration)
           msg.overwroteGeneration msg.overwrittenByGeneration).message = "" ∧
         st' = st) ∨
       (isDuplicate msg photoName st = false ∧
         (create_notification photoName msg.eventType (pyStr msg.objectGeneration)
           msg.overwroteGeneration msg.overwrittenByGeneration).message ≠ "" ∧
         ((msg.eventType = some "OBJECT_FINALIZE" ∧
           ∃ labels0, get_labels photoName msg.visionLabels = some labels0 ∧
             st' = Store.mk
               (st.notifications ++ [create_notification photoName msg.eventType
                 (pyStr msg.objectGeneration) msg.overwroteGeneration
                 msg.overwrittenByGeneration])
               (st.refs ++ [⟨photoName,
                 strTake photoName index ++ pyStr msg.objectGeneration
                   ++ strDrop photoName index,
                 labels0 ++ [photoName, strTake photoName index],
                 get_original photoName (pyStr msg.objectGeneration)⟩])
               (add_thumbnail_reference_to_labels
                 (labels0 ++ [photoName, strTake photoName index])
                 (strTake photoName index ++ pyStr msg.objectGeneration
                   ++ strDrop photoName index)
                 st.labelRecords)
               (bucketPut st.thumbBucket
                 (strTake photoName index ++ pyStr msg.objectGeneration
                   ++ strDrop photoName index)
                 msg.thumbnailBytes)) ∨
          ((msg.eventType = some "OBJECT_DELETE"
              ∨ msg.eventType = some "OBJECT_ARCHIVE") ∧
           ∃ ref recs',
             st.refs.find? (fun r => r.thumbnail_key ==
               strTake photoName index ++ pyStr msg.objectGeneration
                 ++ strDrop photoName index) = some ref ∧
             removeLabelsLoop
               (strTake photoName index ++ pyStr msg.objectGeneration
                 ++ strDrop photoName index)
               ref.labels st.labelRecords = .ok recs' ∧
             (st.thumbBucket.find? (fun e => e.1 ==
               strTake photoName index ++ pyStr msg.objectGeneration
                 ++ strDrop photoName index)).isSome = true ∧
             st' = Store.mk
               (st.notifications ++ [create_notification photoName msg.eventType
                 (pyStr msg.objectGeneration) msg.overwroteGeneration
                 msg.overwrittenByGeneration])
               (eraseFirstP (fun r => r.thumbnail_key ==
                 strTake photoName index ++ pyStr msg.objectGeneration
                   ++ strDrop photoName index) st.refs)
               recs'
               (eraseFirstP (fun e => e.1 ==
                 strTake photoName index ++ pyStr msg.objectGeneration
                   ++ strDrop photoName index) st.thumbBucket))))) := by
  unfold receiveMessage at hok
  split at hok
  · simp at hok
  rename_i photoName ho
  split at hok
  · simp at hok
  rename_i index hidx
  refine ⟨photoName, index, ho, hidx, ?_⟩
  by_cases hdup : isDuplicate msg photoName st
  · rw [if_pos (by simpa using hdup)] at hok
    injection hok with hok
    exact Or.inl ⟨hdup, hok.symm⟩
  · rw [if_neg (by simpa using hdup)] at hok
    by_cases hmsg : (create_notification photoName msg.eventType
        (pyStr msg.objectGeneration) msg.overwroteGeneration
        msg.overwrittenByGeneration).message = ""
    · rw [if_pos hmsg] at hok
      injection hok with hok
      exact Or.inr (Or.inl ⟨Bool.eq_false_iff.mpr (by simpa using hdup), hmsg, hok.symm⟩)
    · rw [if_neg hmsg] at hok
      by_cases hev : msg.eventType = some "OBJECT_FINALIZE"
      · rw [if_pos hev] at hok
        split at hok
        · rename_i hglnone
          unfold get_labels at hglnone
          rw [hidx] at hglnone
          simp at hglnone
        rename_i labels0 hgl
        injection hok with hok
        exact Or.inr (Or.inr ⟨Bool.eq_false_iff.mpr (by simpa using hdup), hmsg,
          Or.inl ⟨hev, labels0, hgl, hok.symm⟩⟩)
      · rw [if_neg hev] at hok
        by_cases hev2 : msg.eventType = some "OBJECT_DELETE"
            ∨ msg.eventType = some "OBJECT_ARCHIVE"
        · rw [if_pos hev2] at hok
          split at hok
          · simp at hok
          rename_i recs hrm
          unfold delete_thumbnail at hok
          split at hok
          · simp at hok
          rename_i ref₀ hfind
          by_cases hbuck : ((st.thumbBucket.find? (fun e => e.1 ==
              strTake photoName index ++ pyStr msg.objectGeneration
                ++ strDrop photoName index)).isSome = true)
          · rw [if_pos hbuck] at hok
            injection hok with hok
            obtain ⟨ref, href, hloop⟩ := remove_thumbnail_ok hrm
            exact Or.inr (Or.inr ⟨Bool.eq_false_iff.mpr (by simpa using hdup), hmsg,
              Or.inr ⟨hev2, ref, recs, href, hloop, hbuck, hok.symm⟩⟩)
          · rw [if_neg hbuck] at hok
            simp at hok
        · rw [if_neg hev2] at hok
          exfalso
          apply hmsg
          have hd : ¬ msg.eventType = some "OBJECT_DELETE" := fun h => hev2 (Or.inl h)
          have ha : ¬ msg.eventType = some "OBJECT_ARCHIVE" := fun h => hev2 (Or.inr h)
          simp [create_notification, hev, hd, ha]

/-! ### The invariant holds on every reachable store -/

/-- The invariant at the empty store. -/
theorem storeInv_empty : StoreInv emptyStore :=
  ⟨by simp [emptyStore, labelNames], by simp [emptyStore], fun _ _ => rfl,
    by simp [emptyStore]⟩

/-- Appending a notification that failed the duplicate lookup preserves
pairwise distinctness of `(message, generation)` pairs. -/
theorem notifUnique_append {st : Store} {msg : PubSubMessage} {photoName : String}
    (hinv : st.notifications.Pairwise
      (fun a b => ¬(a.message = b.message ∧ a.generation = b.generation)))
    (hdup : isDuplicate msg photoName st = false) :
    (st.notifications ++ [create_notification photoName msg.eventType
      (pyStr msg.objectGeneration) msg.overwroteGeneration
      msg.overwrittenByGeneration]).Pairwise
      (fun a b => ¬(a.message = b.message ∧ a.generation = b.generation)) := by
  rw [List.pairwise_append]
  refine ⟨hinv, List.pairwise_singleton _ _, ?_⟩
  intro a ha b hb
  simp only [List.mem_singleton] at hb
  subst hb
  intro hcon
  unfold isDuplicate at hdup
  have hsome : (st.notifications.find? (fun m =>
      m.message == (create_notification photoName msg.eventType
        (pyStr msg.objectGeneration) msg.overwroteGeneration
        msg.overwrittenByGeneration).message &&
      m.generation == (create_notification photoName msg.eventType
        (pyStr msg.objectGeneration) msg.overwroteGeneration
        msg.overwrittenByGeneration).generation)).isSome = true := by
    rw [List.find?_isSome]
    exact ⟨a, ha, by simp [hcon.1, hcon.2]⟩
  rw [hsome] at hdup
  cases hdup

/-- One completed handler step preserves the invariant. -/
theorem storeInv_step {msg : PubSubMessage} {st st' : Store}
    (hinv : StoreInv st) (hok : receiveMessage msg st = .ok st') : StoreInv st' := by
  obtain ⟨photoName, index, ho, hidx, hshape⟩ := recv_ok_shape hok
  rcases hshape with ⟨_, rfl⟩ | ⟨_, _, rfl⟩ | ⟨hdup, hmsg, hcase⟩
  · exact hinv
  · exact hinv
  · rcases hcase with ⟨hev, labels0, hgl, rfl⟩ | ⟨hev, ref, recs', hfind, hloop, hbuck, rfl⟩
    · refine ⟨?_, ?_, ?_, ?_⟩
      · exact nodup_labelNames_addAll _ _ hinv.nodupNames
      · exact nonempty_addAll _ _ hinv.nonemptyRecords
      · intro l k
        rw [labelCount_addAll, refsCount_append, hinv.counts, refsCount_singleton]
        by_cases e : k = strTake photoName index ++ pyStr msg.objectGeneration
            ++ strDrop photoName index
        · subst e
          simp
        · have e' : ¬ (strTake photoName index ++ pyStr msg.objectGeneration
              ++ strDrop photoName index = k) := fun hc => e hc.symm
          simp [e, e']
      · exact notifUnique_append hinv.notifUnique hdup
    · refine ⟨?_, ?_, ?_, ?_⟩
      · exact (removeLabelsLoop_ok_names hloop).nodup hinv.nodupNames
      · exact removeLabelsLoop_ok_nonempty hloop hinv.nonemptyRecords
      · intro l k
        show labelCount recs' l k = refsCount (eraseFirstP (fun r => r.thumbnail_key ==
          strTake photoName index ++ pyStr msg.objectGeneration
            ++ strDrop photoName index) st.refs) l k
        have h1 := removeLabelsLoop_ok_counts hloop l k
        have h2 := refsCount_eraseFirstP hfind l k
        have h3 := hinv.counts l k
        have hkey : ref.thumbnail_key = strTake photoName index
            ++ pyStr msg.objectGeneration ++ strDrop photoName index := by
          simpa using List.find?_some hfind
        by_cases e : k = strTake photoName index ++ pyStr msg.objectGeneration
            ++ strDrop photoName index
        · rw [if_pos e] at h1
          rw [if_pos (hkey.trans e.symm)] at h2
          omega
        · rw [if_neg e] at h1
          rw [if_neg (fun hc => e (hc.symm.trans hkey))] at h2
          omega
      · exact notifUnique_append hinv.notifUnique hdup

/-- The invariant holds on every reachable store. -/
theorem reachable_inv {st : Store} (h : Reachable st) : StoreInv st := by
  induction h with
  | init => exact storeInv_empty
  | step msg _ hok ih => exact storeInv_step ih hok

/-! ### Remaining helper lemmas -/

/-- Appending a non-empty string never yields the empty string. -/
theorem append_ne_empty_of_ne {s t : String} (h : t.data ≠ []) : s ++ t ≠ "" := by
  intro hc
  have hd := congrArg String.data hc
  rw [String.data_append] at hd
  have h0 : ("" : String).data = [] := rfl
  rw [h0] at hd
  exact h (List.append_eq_nil.mp hd).2

/-- The notification text of a create, delete or archive event is never
empty. -/
theorem create_notification_ne_empty {photoName g : String} {ow ob ev : Option String}
    (hev : ev = some "OBJECT_FINALIZE" ∨ ev = some "OBJECT_DELETE"
      ∨ ev = some "OBJECT_ARCHIVE") :
    (create_notification photoName ev g ow ob).message ≠ "" := by
  unfold create_notification
  rcases hev with rfl | rfl | rfl
  · rw [if_pos rfl]
    by_cases h : ow.isSome = true
    · rw [if_pos h]
      exact append_ne_empty_of_ne (by decide)
    · rw [if_neg h]
      exact append_ne_empty_of_ne (by decide)
  · rw [if_neg (by decide), if_neg (by decide), if_pos rfl]
    by_cases h : ob.isSome = true
    · rw [if_pos h]
      exact append_ne_empty_of_ne (by decide)
    · rw [if_neg h]
      exact append_ne_empty_of_ne (by decide)
  · rw [if_neg (by decide), if_pos rfl]
    by_cases h : ob.isSome = true
    · rw [if_pos h]
      exact append_ne_empty_of_ne (by decide)
    · rw [if_neg h]
      exact append_ne_empty_of_ne (by decide)

/-- Erasing the first match of a successful search shortens the list by
one. -/
theorem length_eraseFirstP {p : α → Bool} {l : List α} {a : α}
    (h : l.find? p = some a) : (eraseFirstP p l).length + 1 = l.length := by
  induction l with
  | nil => simp at h
  | cons x xs ih =>
    by_cases hp : p x = true
    · simp only [eraseFirstP]
      rw [if_pos hp]
      simp
    · rw [List.find?_cons_of_neg _ (by simpa using hp)] at h
      simp only [eraseFirstP]
      rw [if_neg hp]
      simp only [List.length_cons, ← ih h]

/-- Whether an `Except` value is a completed (non-raising) run. -/
def exceptOk : Except ε α → Bool
  | .ok _ => true
  | .error _ => false

/-- A handler run on a message whose `objectId` lacks `".jpg"` raises
before any store mutation. -/
theorem receiveMessage_no_jpg {msg : PubSubMessage} {st : Store} {photoName : String}
    (ho : msg.objectId = some photoName) (hnone : pyIndex photoName ".jpg" = none) :
    receiveMessage msg st = .error st := by
  simp only [receiveMessage, ho, hnone]

/-- A handler run on a duplicate message leaves the store untouched. -/
theorem receiveMessage_dup {msg : PubSubMessage} {st : Store} {photoName : String}
    {index : Nat}
    (ho : msg.objectId = some photoName) (hidx : pyIndex photoName ".jpg" = some index)
    (hdup : isDuplicate msg photoName st = true) :
    receiveMessage msg st = .ok st := by
  simp only [receiveMessage, ho, hidx, hdup, if_true]

/-! ### Claim theorems -/

/-- C2: after the ingestion handler processes any message to completion
from a reachable store, every stored ThumbnailReference's labels each
have a Label record containing that reference's thumbnail key, and
conversely every key listed in any Label record belongs to a stored
ThumbnailReference carrying that label. -/
theorem label_reference_consistency {st st' : Store} {msg : PubSubMessage}
    (hreach : Reachable st) (hok : receiveMessage msg st = .ok st') :
    consistent st' :=
  consistent_of_counts (reachable_inv (Reachable.step msg hreach hok)).counts

/-- Witness for C2: one OBJECT_FINALIZE processed from the empty store. -/
theorem label_reference_consistency_witness :
    consistent (Store.mk [⟨"a.jpg was uploaded.", "1"⟩]
      [⟨"a.jpg", "a1.jpg", ["a", "a.jpg", "a"],
        "https://storage.googleapis.com/shared-photo-album/a.jpg?generation=1"⟩]
      [⟨"a", ["a1.jpg", "a1.jpg"]⟩, ⟨"a.jpg", ["a1.jpg"]⟩]
      [("a1.jpg", "tb")]) :=
  @label_reference_consistency emptyStore
    (Store.mk [⟨"a.jpg was uploaded.", "1"⟩]
      [⟨"a.jpg", "a1.jpg", ["a", "a.jpg", "a"],
        "https://storage.googleapis.com/shared-photo-album/a.jpg?generation=1"⟩]
      [⟨"a", ["a1.jpg", "a1.jpg"]⟩, ⟨"a.jpg", ["a1.jpg"]⟩]
      [("a1.jpg", "tb")])
    (PubSubMessage.mk (some "OBJECT_FINALIZE")
      (some "a.jpg") (some "1") none none (some []) "tb") Reachable.init rfl

/-- C6 (counterexample): the thumbnail-key construction is not injective
on (photo name, generation) pairs: the two distinct pairs
("a.jpg", "12") and ("a1.jpg", "2") both produce the key "a12.jpg". -/
theorem thumbnail_key_not_injective :
    mkThumbnailKey "a.jpg" "12" = some "a12.jpg" ∧
    mkThumbnailKey "a1.jpg" "2" = some "a12.jpg" ∧
    (("a.jpg", "12") : String × String) ≠ ("a1.jpg", "2") := by
  refine ⟨by decide, by decide, by decide⟩

/-- C6 (amended): the thumbnail key is the photo name with the generation
inserted immediately before the first occurrence of ".jpg", and for a
fixed photo name the construction is injective in the generation
(distinct pairs with different names may collide). -/
theorem thumbnail_key_generation_injective :
    (∀ photoName generation index, pyIndex photoName ".jpg" = some index →
      mkThumbnailKey photoName generation =
        some (strTake photoName index ++ generation ++ strDrop photoName index)) ∧
    (∀ n g₁ g₂ k, mkThumbnailKey n g₁ = some k → mkThumbnailKey n g₂ = some k →
      g₁ = g₂) := by
  constructor
  · intro photoName generation index hidx
    unfold mkThumbnailKey
    rw [hidx]
    rfl
  · intro n g₁ g₂ k h₁ h₂
    exact mkThumbnailKey_inj_generation h₁ h₂

/-- Witness for C6 (amended): the construction at a concrete input. -/
theorem thumbnail_key_generation_injective_witness :
    mkThumbnailKey "a.jpg" "7" = some "a7.jpg" ∧ ("7" : String) = "7" :=
  ⟨by
    have h := thumbnail_key_generation_injective.1 "a.jpg" "7" 1 (by decide)
    rw [h]
    rfl,
   thumbnail_key_generation_injective.2 "a.jpg" "7" "7" "a7.jpg" (by decide) (by decide)⟩

/-- C7 (counterexample): after a single OBJECT_FINALIZE from the empty
store, the Label record for the photo name without extension lists the
new thumbnail key twice, so a Label's list is not duplicate-free. -/
theorem label_index_duplicate_key :
    receiveMessage (PubSubMessage.mk (some "OBJECT_FINALIZE") (some "a.jpg") (some "1")
        none none (some []) "tb") emptyStore
      = .ok (Store.mk [⟨"a.jpg was uploaded.", "1"⟩]
          [⟨"a.jpg", "a1.jpg", ["a", "a.jpg", "a"],
            "https://storage.googleapis.com/shared-photo-album/a.jpg?generation=1"⟩]
          [⟨"a", ["a1.jpg", "a1.jpg"]⟩, ⟨"a.jpg", ["a1.jpg"]⟩]
          [("a1.jpg", "tb")]) ∧
    Label.mk "a" ["a1.jpg", "a1.jpg"] ∈
      (Store.mk [⟨"a.jpg was uploaded.", "1"⟩]
        [⟨"a.jpg", "a1.jpg", ["a", "a.jpg", "a"],
          "https://storage.googleapis.com/shared-photo-album/a.jpg?generation=1"⟩]
        [⟨"a", ["a1.jpg", "a1.jpg"]⟩, ⟨"a.jpg", ["a1.jpg"]⟩]
        [("a1.jpg", "tb")]).labelRecords ∧
    (["a1.jpg", "a1.jpg"] : List String).count "a1.jpg" = 2 :=
  ⟨rfl, by decide, by decide⟩

/-- C7 (amended): on every reachable store, each Label record lists a
thumbnail key exactly as many times as its label text occurs in the
labels lists of the stored references with that key (so a key can occur
twice, via the duplicated filename-stem label, but never spuriously). -/
theorem label_index_multiset {st : Store} (h : Reachable st) :
    ∀ l k, labelCount st.labelRecords l k = refsCount st.refs l k :=
  (reachable_inv h).counts

/-- Witness for C7 (amended): the count balance on a concrete reachable
store. -/
theorem label_index_multiset_witness :
    labelCount [⟨"a", ["a1.jpg", "a1.jpg"]⟩, ⟨"a.jpg", ["a1.jpg"]⟩] "a" "a1.jpg"
      = refsCount [⟨"a.jpg", "a1.jpg", ["a", "a.jpg", "a"],
          "https://storage.googleapis.com/shared-photo-album/a.jpg?generation=1"⟩]
          "a" "a1.jpg" :=
  label_index_multiset
    (Reachable.step (PubSubMessage.mk (some "OBJECT_FINALIZE") (some "a.jpg") (some "1")
      none none (some []) "tb") Reachable.init rfl)
    "a" "a1.jpg"

/-- C8: the GET handlers are pure projections: each returns its template
values and leaves the store exactly as it was — no Notification,
ThumbnailReference, Label or bucket object is created, modified or
deleted. -/
theorem presentation_handlers_pure :
    ∀ (servingUrl : String → String) (searchTerm : String) (st : Store),
      (mainHandler st).2 = st ∧ (photosHandler servingUrl st).2 = st ∧
      (searchHandler servingUrl searchTerm st).2 = st :=
  fun _ _ _ => ⟨rfl, rfl, rfl⟩

/-- C9: the ingestion handler requires the message's objectId to contain
".jpg": without it the run raises with the store unchanged, and with it
the substring search of `get_labels` also succeeds; containing ".jpg" is
exactly what the search tests. -/
theorem jpg_precondition :
    ∀ (msg : PubSubMessage) (st : Store) (photoName : String),
      msg.objectId = some photoName →
      ((pyIndex photoName ".jpg" = none → receiveMessage msg st = .error st) ∧
       (∀ index, pyIndex photoName ".jpg" = some index →
          ∃ ls, get_labels photoName msg.visionLabels = some ls) ∧
       ((pyIndex photoName ".jpg").isSome = true ↔
          ∃ pre post, photoName.data = pre ++ (".jpg" : String).data ++ post)) := by
  intro msg st photoName ho
  refine ⟨fun hnone => receiveMessage_no_jpg ho hnone, ?_, pyIndex_isSome_iff _ _⟩
  intro index hidx
  unfold get_labels
  rw [hidx]
  exact ⟨_, rfl⟩

/-- Witness for C9: a run on an objectId lacking ".jpg" raises with the
store unchanged. -/
theorem jpg_precondition_witness :
    receiveMessage (PubSubMessage.mk (some "OBJECT_FINALIZE") (some "photo.txt")
      (some "1") none none (some []) "tb") emptyStore = .error emptyStore :=
  (jpg_precondition (PubSubMessage.mk (some "OBJECT_FINALIZE") (some "photo.txt")
    (some "1") none none (some []) "tb") emptyStore "photo.txt" rfl).1 (by decide)

/-- C10: on a reachable store, the unguarded lookups and list removals
of `remove_thumbnail_from_labels` (and the reference lookup of
`delete_thumbnail`, which queries the same key) complete without raising
exactly when a ThumbnailReference with the key exists and every label in
its labels list has a Label record whose list contains the key. -/
theorem delete_precondition {st : Store} (hreach : Reachable st) (key : String) :
    exceptOk (remove_thumbnail_from_labels key st.refs st.labelRecords) = true ↔
      ∃ ref, st.refs.find? (fun r => r.thumbnail_key == key) = some ref ∧
        ∀ l ∈ ref.labels, ∃ rec ∈ st.labelRecords,
          rec.label_name = l ∧ key ∈ rec.labeled_thumbnails := by
  have hinv := reachable_inv hreach
  constructor
  · intro hok
    obtain ⟨recs', hrm⟩ : ∃ recs',
        remove_thumbnail_from_labels key st.refs st.labelRecords = .ok recs' := by
      cases hc : remove_thumbnail_from_labels key st.refs st.labelRecords with
      | error e => rw [hc] at hok; simp [exceptOk] at hok
      | ok v => exact ⟨v, rfl⟩
    obtain ⟨ref, hfind, hloop⟩ := remove_thumbnail_ok hrm
    refine ⟨ref, hfind, ?_⟩
    intro l hl
    have hle := removeLabelsLoop_ok_le hloop l
    have hcnt : 0 < ref.labels.count l := List.count_pos_iff.mpr hl
    exact exists_rec_of_labelCount_pos (lt_of_lt_of_le hcnt hle)
  · rintro ⟨ref, hfind, _⟩
    have hkey : ref.thumbnail_key = key := by simpa using List.find?_some hfind
    have hmem : ref ∈ st.refs := List.mem_of_find?_eq_some hfind
    have hle : ∀ l, ref.labels.count l ≤ labelCount st.labelRecords l key := by
      intro l
      rw [hinv.counts]
      have h1 := refsCount_ge_of_mem hmem l
      rw [hkey] at h1
      exact h1
    obtain ⟨recs', hloop⟩ := removeLabelsLoop_ok_of_le hinv.nodupNames hle
    unfold remove_thumbnail_from_labels
    rw [hfind]
    show exceptOk (removeLabelsLoop key ref.labels st.labelRecords) = true
    rw [hloop]
    rfl

/-- Witness for C10: the precondition holds on the store reached by one
OBJECT_FINALIZE, so the remove loop completes there. -/
theorem delete_precondition_witness :
    exceptOk (remove_thumbnail_from_labels "a1.jpg"
      [ThumbnailReference.mk "a.jpg" "a1.jpg" ["a", "a.jpg", "a"]
        "https://storage.googleapis.com/shared-photo-album/a.jpg?generation=1"]
      [Label.mk "a" ["a1.jpg", "a1.jpg"], Label.mk "a.jpg" ["a1.jpg"]]) = true :=
  (delete_precondition
    (Reachable.step (PubSubMessage.mk (some "OBJECT_FINALIZE") (some "a.jpg") (some "1")
      none none (some []) "tb") Reachable.init rfl)
    "a1.jpg").mpr
    ⟨ThumbnailReference.mk "a.jpg" "a1.jpg" ["a", "a.jpg", "a"]
      "https://storage.googleapis.com/shared-photo-album/a.jpg?generation=1",
     by decide, by decide⟩

/-- C1: when a Notification with the same (message, generation) pair as
the incoming message's notification is already stored, the handler run
leaves every store unchanged (it returns early, or raises before any
write when the objectId lacks ".jpg"); consequently on every reachable
store no two stored Notifications share a (message, generation) pair. -/
theorem notification_dedup :
    (∀ (msg : PubSubMessage) (st : Store) (photoName : String),
      msg.objectId = some photoName →
      isDuplicate msg photoName st = true →
      receiveMessage msg st = .ok st ∨ receiveMessage msg st = .error st) ∧
    (∀ st : Store, Reachable st →
      st.notifications.Pairwise
        (fun a b => ¬(a.message = b.message ∧ a.generation = b.generation))) := by
  constructor
  · intro msg st photoName ho hdup
    cases hidx : pyIndex photoName ".jpg" with
    | none => exact Or.inr (receiveMessage_no_jpg ho hidx)
    | some index => exact Or.inl (receiveMessage_dup ho hidx hdup)
  · intro st hreach
    exact (reachable_inv hreach).notifUnique

/-- Witness for C1: a duplicate OBJECT_FINALIZE message against a store
already holding its notification, and the empty store's uniqueness. -/
theorem notification_dedup_witness :
    (receiveMessage (PubSubMessage.mk (some "OBJECT_FINALIZE") (some "a.jpg") (some "1")
        none none (some []) "tb")
        (Store.mk [⟨"a.jpg was uploaded.", "1"⟩] [] [] [])
      = .ok (Store.mk [⟨"a.jpg was uploaded.", "1"⟩] [] [] []) ∨
     receiveMessage (PubSubMessage.mk (some "OBJECT_FINALIZE") (some "a.jpg") (some "1")
        none none (some []) "tb")
        (Store.mk [⟨"a.jpg was uploaded.", "1"⟩] [] [] [])
      = .error (Store.mk [⟨"a.jpg was uploaded.", "1"⟩] [] [] [])) ∧
    ([] : List Notification).Pairwise
      (fun a b => ¬(a.message = b.message ∧ a.generation = b.generation)) :=
  ⟨notification_dedup.1 (PubSubMessage.mk (some "OBJECT_FINALIZE") (some "a.jpg")
      (some "1") none none (some []) "tb")
      (Store.mk [⟨"a.jpg was uploaded.", "1"⟩] [] [] []) "a.jpg" rfl (by decide),
   notification_dedup.2 emptyStore Reachable.init⟩

/-- C3: a completed, non-duplicate OBJECT_FINALIZE run stores the
notification, writes the thumbnail into the thumbnail bucket under the
thumbnail key, stores exactly one new ThumbnailReference carrying the
photo name, key, obtained labels and original-photo URL, and adds the
key to the Label record of every label in that list. -/
theorem finalize_pipeline {msg : PubSubMessage} {st st' : Store} {photoName : String}
    {index : Nat}
    (ho : msg.objectId = some photoName)
    (hev : msg.eventType = some "OBJECT_FINALIZE")
    (hidx : pyIndex photoName ".jpg" = some index)
    (hdup : isDuplicate msg photoName st = false)
    (hok : receiveMessage msg st = .ok st') :
    ∃ labels0, get_labels photoName msg.visionLabels = some labels0 ∧
      st'.notifications = st.notifications ++ [create_notification photoName
        msg.eventType (pyStr msg.objectGeneration) msg.overwroteGeneration
        msg.overwrittenByGeneration] ∧
      st'.thumbBucket = bucketPut st.thumbBucket
        (strTake photoName index ++ pyStr msg.objectGeneration
          ++ strDrop photoName index) msg.thumbnailBytes ∧
      st'.refs = st.refs ++ [⟨photoName,
        strTake photoName index ++ pyStr msg.objectGeneration
          ++ strDrop photoName index,
        labels0 ++ [photoName, strTake photoName index],
        get_original photoName (pyStr msg.objectGeneration)⟩] ∧
      st'.labelRecords = add_thumbnail_reference_to_labels
        (labels0 ++ [photoName, strTake photoName index])
        (strTake photoName index ++ pyStr msg.objectGeneration
          ++ strDrop photoName index) st.labelRecords ∧
      ∀ l ∈ labels0 ++ [photoName, strTake photoName index],
        ∃ rec ∈ st'.labelRecords, rec.label_name = l ∧
          (strTake photoName index ++ pyStr msg.objectGeneration
            ++ strDrop photoName index) ∈ rec.labeled_thumbnails := by
  obtain ⟨pn, i, ho', hidx', hshape⟩ := recv_ok_shape hok
  rw [ho] at ho'
  injection ho' with ho'
  subst ho'
  rw [hidx] at hidx'
  injection hidx' with hidx'
  subst hidx'
  rcases hshape with ⟨hd, _⟩ | ⟨_, hm, _⟩ | ⟨_, _, hcase⟩
  · rw [hdup] at hd
    exact Bool.noConfusion hd
  · exact absurd hm (create_notification_ne_empty (Or.inl hev))
  · rcases hcase with ⟨_, labels0, hgl, rfl⟩ | ⟨hev2, _⟩
    · refine ⟨labels0, hgl, rfl, rfl, rfl, rfl, ?_⟩
      intro l hl
      have hpos : 0 < labelCount (add_thumbnail_reference_to_labels
          (labels0 ++ [photoName, strTake photoName index])
          (strTake photoName index ++ pyStr msg.objectGeneration
            ++ strDrop photoName index) st.labelRecords) l
          (strTake photoName index ++ pyStr msg.objectGeneration
            ++ strDrop photoName index) := by
        rw [labelCount_addAll, if_pos rfl]
        have := List.count_pos_iff.mpr hl
        omega
      exact exists_rec_of_labelCount_pos hpos
    · rcases hev2 with he | he <;> rw [hev] at he <;>
        exact absurd (Option.some.inj he) (by decide)

/-- Witness for C3: the notification effect of a concrete finalize run. -/
theorem finalize_pipeline_witness :
    (Store.mk [⟨"a.jpg was uploaded.", "1"⟩]
      [⟨"a.jpg", "a1.jpg", ["a", "a.jpg", "a"],
        "https://storage.googleapis.com/shared-photo-album/a.jpg?generation=1"⟩]
      [⟨"a", ["a1.jpg", "a1.jpg"]⟩, ⟨"a.jpg", ["a1.jpg"]⟩]
      [("a1.jpg", "tb")]).notifications
      = [] ++ [create_notification "a.jpg" (some "OBJECT_FINALIZE") (pyStr (some "1"))
          none none] := by
  obtain ⟨labels0, -, hnotif, -⟩ :=
    @finalize_pipeline (PubSubMessage.mk (some "OBJECT_FINALIZE") (some "a.jpg")
      (some "1") none none (some []) "tb") emptyStore
      (Store.mk [⟨"a.jpg was uploaded.", "1"⟩]
        [⟨"a.jpg", "a1.jpg", ["a", "a.jpg", "a"],
          "https://storage.googleapis.com/shared-photo-album/a.jpg?generation=1"⟩]
        [⟨"a", ["a1.jpg", "a1.jpg"]⟩, ⟨"a.jpg", ["a1.jpg"]⟩]
        [("a1.jpg", "tb")])
      "a.jpg" 1 rfl rfl (by decide) (by decide) rfl
  exact hnotif

/-- C4: a completed, non-duplicate OBJECT_DELETE or OBJECT_ARCHIVE run
removes the key (once per occurrence of each label) from the Label
records named in the found reference's labels, deletes that reference,
deletes the bucket object, stores the notification, and creates no new
ThumbnailReference or Label. -/
theorem delete_pipeline {msg : PubSubMessage} {st st' : Store} {photoName : String}
    {index : Nat}
    (ho : msg.objectId = some photoName)
    (hev : msg.eventType = some "OBJECT_DELETE" ∨ msg.eventType = some "OBJECT_ARCHIVE")
    (hidx : pyIndex photoName ".jpg" = some index)
    (hdup : isDuplicate msg photoName st = false)
    (hok : receiveMessage msg st = .ok st') :
    ∃ ref recs',
      st.refs.find? (fun r => r.thumbnail_key ==
        strTake photoName index ++ pyStr msg.objectGeneration
          ++ strDrop photoName index) = some ref ∧
      removeLabelsLoop (strTake photoName index ++ pyStr msg.objectGeneration
        ++ strDrop photoName index) ref.labels st.labelRecords = .ok recs' ∧
      st'.notifications = st.notifications ++ [create_notification photoName
        msg.eventType (pyStr msg.objectGeneration) msg.overwroteGeneration
        msg.overwrittenByGeneration] ∧
      st'.refs = eraseFirstP (fun r => r.thumbnail_key ==
        strTake photoName index ++ pyStr msg.objectGeneration
          ++ strDrop photoName index) st.refs ∧
      st'.labelRecords = recs' ∧
      st'.thumbBucket = eraseFirstP (fun e => e.1 ==
        strTake photoName index ++ pyStr msg.objectGeneration
          ++ strDrop photoName index) st.thumbBucket ∧
      (∀ l ∈ ref.labels,
        labelCount recs' l (strTake photoName index ++ pyStr msg.objectGeneration
          ++ strDrop photoName index)
        < labelCount st.labelRecords l (strTake photoName index
            ++ pyStr msg.objectGeneration ++ strDrop photoName index)) ∧
      List.Sublist (labelNames recs') (labelNames st.labelRecords) ∧
      st'.refs.length + 1 = st.refs.length := by
  obtain ⟨pn, i, ho', hidx', hshape⟩ := recv_ok_shape hok
  rw [ho] at ho'
  injection ho' with ho'
  subst ho'
  rw [hidx] at hidx'
  injection hidx' with hidx'
  subst hidx'
  rcases hshape with ⟨hd, _⟩ | ⟨_, hm, _⟩ | ⟨_, _, hcase⟩
  · rw [hdup] at hd
    exact Bool.noConfusion hd
  · exact absurd hm (create_notification_ne_empty (Or.inr hev))
  · rcases hcase with ⟨hevf, _⟩ | ⟨_, ref, recs', hfind, hloop, hbuck, rfl⟩
    · rcases hev with he | he <;> rw [hevf] at he <;>
        exact absurd (Option.some.inj he) (by decide)
    · refine ⟨ref, recs', hfind, hloop, rfl, rfl, rfl, rfl, ?_, ?_, ?_⟩
      · intro l hl
        have h1 := removeLabelsLoop_ok_counts hloop l
          (strTake photoName index ++ pyStr msg.objectGeneration
            ++ strDrop photoName index)
        rw [if_pos rfl] at h1
        have h2 : 0 < ref.labels.count l := List.count_pos_iff.mpr hl
        omega
      · exact removeLabelsLoop_ok_names hloop
      · exact length_eraseFirstP hfind

/-- Witness for C4: the notification effect of a concrete delete run. -/
theorem delete_pipeline_witness :
    (Store.mk [⟨"a.jpg was uploaded.", "1"⟩, ⟨"a.jpg was deleted.", "1"⟩] [] [] []).notifications
      = [⟨"a.jpg was uploaded.", "1"⟩]
        ++ [create_notification "a.jpg" (some "OBJECT_DELETE") (pyStr (some "1"))
          none none] := by
  obtain ⟨ref, recs', -, -, hnotif, -⟩ :=
    @delete_pipeline (PubSubMessage.mk (some "OBJECT_DELETE") (some "a.jpg")
      (some "1") none none none "")
      (Store.mk [⟨"a.jpg was uploaded.", "1"⟩]
        [⟨"a.jpg", "a1.jpg", ["a", "a.jpg", "a"],
          "https://storage.googleapis.com/shared-photo-album/a.jpg?generation=1"⟩]
        [⟨"a", ["a1.jpg", "a1.jpg"]⟩, ⟨"a.jpg", ["a1.jpg"]⟩]
        [("a1.jpg", "tb")])
      (Store.mk [⟨"a.jpg was uploaded.", "1"⟩, ⟨"a.jpg was deleted.", "1"⟩] [] [] [])
      "a.jpg" 1 rfl (Or.inl rfl) (by decide) (by decide) rfl
  exact hnotif

/-- C5: a Label record is created exactly when a key is added for a
label text with no existing record (appended at the end of the store,
holding just the new key); on removal the first matching record is
deleted exactly when erasing the key leaves its list empty, and
otherwise updated in place. -/
theorem label_lifecycle :
    ∀ (recs : List Label) (l k : String),
      ((recs.find? (fun r => r.label_name == l) = none →
          addKeyToLabel recs l k = recs ++ [⟨l, [k]⟩]) ∧
       (∀ r, recs.find? (fun r => r.label_name == l) = some r →
          addKeyToLabel recs l k =
            updateFirst (fun r => r.label_name == l)
              (fun r => { r with labeled_thumbnails := r.labeled_thumbnails ++ [k] })
              recs)) ∧
      (∀ r recs', recs.find? (fun r => r.label_name == l) = some r →
          removeKeyFromLabel recs l k = some recs' →
          ((r.labeled_thumbnails.erase k = [] →
             recs' = eraseFirstP (fun r => r.label_name == l) recs) ∧
           (r.labeled_thumbnails.erase k ≠ [] →
             recs' = updateFirst (fun r => r.label_name == l)
               (fun r => { r with labeled_thumbnails := r.labeled_thumbnails.erase k })
               recs))) := by
  intro recs l k
  induction recs with
  | nil =>
    exact ⟨⟨fun _ => rfl, fun r hr => by simp at hr⟩, fun r recs' hr => by simp at hr⟩
  | cons r₀ rs ih =>
    by_cases hn : r₀.label_name = l
    · have hb : (fun r : Label => r.label_name == l) r₀ = true := by simpa using hn
      refine ⟨⟨?_, ?_⟩, ?_⟩
      · intro hnone
        rw [List.find?_cons_of_pos (p := fun r : Label => r.label_name == l) _ hb]
          at hnone
        cases hnone
      · intro r hr
        rw [List.find?_cons_of_pos (p := fun r : Label => r.label_name == l) _ hb] at hr
        simp only [addKeyToLabel, updateFirst]
        rw [if_pos hn, if_pos hb]
      · intro r recs' hr hrm
        rw [List.find?_cons_of_pos (p := fun r : Label => r.label_name == l) _ hb] at hr
        injection hr with hr
        subst hr
        simp only [removeKeyFromLabel] at hrm
        rw [if_pos hn] at hrm
        by_cases hk : k ∈ r₀.labeled_thumbnails
        · rw [if_pos hk] at hrm
          by_cases hemp : (r₀.labeled_thumbnails.erase k).isEmpty = true
          · rw [if_pos hemp] at hrm
            injection hrm with hrm
            subst hrm
            constructor
            · intro _
              simp only [eraseFirstP]
              rw [if_pos hb]
            · intro hne
              exact absurd (List.isEmpty_iff.mp hemp) hne
          · rw [if_neg hemp] at hrm
            injection hrm with hrm
            subst hrm
            constructor
            · intro he
              exact absurd (List.isEmpty_iff.mpr he) hemp
            · intro _
              simp only [updateFirst]
              rw [if_pos hb]
        · rw [if_neg hk] at hrm
          cases hrm
    · have hb : (fun r : Label => r.label_name == l) r₀ = false := by
        simp [hn]
      refine ⟨⟨?_, ?_⟩, ?_⟩
      · intro hnone
        rw [List.find?_cons_of_neg (p := fun r : Label => r.label_name == l) _
          (by simp [hn])] at hnone
        simp only [addKeyToLabel]
        rw [if_neg hn, (ih.1).1 hnone]
        rfl
      · intro r hr
        rw [List.find?_cons_of_neg (p := fun r : Label => r.label_name == l) _
          (by simp [hn])] at hr
        simp only [addKeyToLabel, updateFirst]
        rw [if_neg hn, if_neg (by simp [hn] :
          ¬ ((fun r : Label => r.label_name == l) r₀ = true))]
        rw [(ih.1).2 r hr]
      · intro r recs' hr hrm
        rw [List.find?_cons_of_neg (p := fun r : Label => r.label_name == l) _
          (by simp [hn])] at hr
        simp only [removeKeyFromLabel] at hrm
        rw [if_neg hn] at hrm
        cases hrec : removeKeyFromLabel rs l k with
        | none => rw [hrec] at hrm; simp at hrm
        | some rs' =>
          rw [hrec] at hrm
          simp only [Option.map_some'] at hrm
          injection hrm with hrm
          subst hrm
          have hih := (ih.2) r rs' hr hrec
          constructor
          · intro he
            rw [hih.1 he]
            simp only [eraseFirstP]
            rw [if_neg (by simp [hn] :
              ¬ ((fun r : Label => r.label_name == l) r₀ = true))]
          · intro he
            rw [hih.2 he]
            simp only [updateFirst]
            rw [if_neg (by simp [hn] :
              ¬ ((fun r : Label => r.label_name == l) r₀ = true))]

/-- Witness for C5: creation at first use and deletion on emptying, at
concrete inputs. -/
theorem label_lifecycle_witness :
    addKeyToLabel [] "a" "k1" = [] ++ [⟨"a", ["k1"]⟩] ∧
    removeKeyFromLabel [Label.mk "a" ["k1"]] "a" "k1"
      = some (eraseFirstP (fun r => r.label_name == "a") [Label.mk "a" ["k1"]]) := by
  constructor
  · exact ((label_lifecycle [] "a" "k1").1).1 (by decide)
  · have h := ((label_lifecycle [Label.mk "a" ["k1"]] "a" "k1").2)
      (Label.mk "a" ["k1"]) [] (by decide) (by decide)
    rw [← h.1 (by decide)]
    decide

end PhotoShare
